import Mathlib

/-!
Verification of the cardinal active-learning library against its
natural-language specification.

The definitions below are a shallow embedding of the Python sources:
 * src/cardinal/batch.py   (RankedBatchSampler.select_samples)
 * src/cardinal/base.py    (ScoredQuerySampler, ChainQuerySampler)
 * the AdaptiveQuerySampler defined in the shipped example
   plot_digits_metrics.py

Feature rows are an abstract type with an abstract metric valued in the
rationals; machine floats are modelled by exact rational arithmetic.
Calls whose Python counterpart raises (empty inputs handed to the sklearn
pairwise helpers, out-of-range fancy indexing, an unknown strategy string)
return none or Except.error.
-/

namespace Cardinal

variable {α : Type} [Inhabited α]

/-- One-dimensional euclidean metric: the distance between two rationals,
used to instantiate the pluggable metric on concrete inputs. -/
def euclid1 (a b : ℚ) : ℚ := |a - b|

/-- Position of the first occurrence of the maximum of a list, the
semantics of np.argmax (undefined on the empty list, guarded by callers). -/
def listMax : List ℚ → ℚ
  | [] => 0
  | x :: xs => xs.foldl max x

/-- First index attaining the maximum, as np.argmax returns it. -/
def argmaxIdx : List ℚ → Nat
  | [] => 0
  | [_] => 0
  | x :: y :: ys => if listMax (y :: ys) ≤ x then 0 else argmaxIdx (y :: ys) + 1

lemma getD_mem_of_lt {l : List Nat} {i : Nat} (h : i < l.length) (d : Nat) :
    l.getD i d ∈ l := by
  rw [List.getD_eq_getElem l d h]
  exact List.getElem_mem h

namespace RankedBatchSampler

/-- batch.py lines 50-51: index positions of the rows whose weight is
strictly greater than -0.5 (the unlabeled mask applied to np.arange). -/
def unlabeledIdx (X : List α) (w : List ℚ) : List Nat :=
  (List.range X.length).filter (fun i => decide (-(1/2 : ℚ) < w.getD i 0))

/-- batch.py line 60: index positions of the rows flagged as labeled,
np.logical_not of the unlabeled mask. -/
def labeledIdx (X : List α) (w : List ℚ) : List Nat :=
  (List.range X.length).filter (fun i => !(decide (-(1/2 : ℚ) < w.getD i 0)))

/-- Minimum distance from the point x to the rows of B, the per-row min
returned by sklearn pairwise distance helpers (B nonempty at call sites;
sklearn raises on an empty input, which callers model as none). -/
def nnDist (d : α → α → ℚ) (x : α) : List α → ℚ
  | [] => 0
  | b :: bs => bs.foldl (fun m y => min m (d x y)) (d x b)

/-- Loop state of select_samples.  The field w is the private copy made on
line 55 (the only array the loop writes, line 81); callerW is the array the
caller passed in, which the code never touches after taking the copy. -/
structure State where
  sims : List ℚ
  w : List ℚ
  callerW : List ℚ
  selected : List Nat
  n_unlabeled : ℤ

/-- batch.py line 68: alpha = n_unlabeled / n_samples. -/
def rbAlpha (X : List α) (st : State) : ℚ :=
  (st.n_unlabeled : ℚ) / (X.length : ℚ)

/-- batch.py lines 69-70: per-eligible-row greedy scores. -/
def rbScores (X : List α) (uIdx : List Nat) (st : State) : List ℚ :=
  List.zipWith
    (fun s i => rbAlpha X st * (1 - s) + (1 - rbAlpha X st) * st.w.getD i 0)
    st.sims uIdx

/-- batch.py line 72: index[unlabeled_mask][np.argmax(scores)]. -/
def rbPick (X : List α) (uIdx : List Nat) (st : State) : Nat :=
  uIdx.getD (argmaxIdx (rbScores X uIdx st)) 0

/-- One iteration of the greedy loop, batch.py lines 66-82. -/
def rbStep (d : α → α → ℚ) (X : List α) (uIdx : List Nat) (st : State) :
    State :=
  let idx := rbPick X uIdx st
  { sims := List.zipWith max st.sims
      (uIdx.map (fun i => 1 / (1 + d (X.getD i default) (X.getD idx default))))
    w := st.w.set idx 0
    callerW := st.callerW
    selected := st.selected ++ [idx]
    n_unlabeled := st.n_unlabeled - 1 }

/-- State before the loop, batch.py lines 49-64: the initial similarities
are nearest-labeled-row similarities 1 / (1 + distance). -/
def rbInit (d : α → α → ℚ) (X : List α) (w : List ℚ) : State :=
  { sims := (unlabeledIdx X w).map (fun i =>
      1 / (1 + nnDist d (X.getD i default)
        ((labeledIdx X w).map (fun j => X.getD j default))))
    w := w
    callerW := w
    selected := []
    n_unlabeled := ((unlabeledIdx X w).length : ℤ) }

/-- Loop state after k iterations of the greedy loop. -/
def rbState (d : α → α → ℚ) (X : List α) (w : List ℚ) : Nat → State
  | 0 => rbInit d X w
  | k + 1 => rbStep d X (unlabeledIdx X w) (rbState d X w k)

/-- RankedBatchSampler.select_samples, batch.py lines 36-84.  The Python
code performs no validation of its own: the only failures are the sklearn
pairwise helpers (and np.argmax) raising when the eligible or the labeled
row set is empty, modelled as none. -/
def select_samples (d : α → α → ℚ) (X : List α) (w : List ℚ)
    (batch_size : Nat) : Option (List Nat) :=
  if unlabeledIdx X w = [] ∨ labeledIdx X w = [] then none
  else some ((rbState d X w batch_size).selected)

/-- Concrete six-point input of the two-cluster scenario in the spec. -/
def cSX : List ℚ := [0, 1, 2, 10, 11, 12]

/-- Weights of the two-cluster scenario: first three rows labeled. -/
def cSW : List ℚ := [-1, -1, -1, 1/2, 1/2, 1/2]

lemma rb_selected_length (d : α → α → ℚ) (X : List α) (w : List ℚ) :
    ∀ k, (rbState d X w k).selected.length = k := by
  intro k
  induction k with
  | zero => rfl
  | succ k ih => simp [rbState, rbStep, ih]

lemma rb_sims_length (d : α → α → ℚ) (X : List α) (w : List ℚ) :
    ∀ k, (rbState d X w k).sims.length = (unlabeledIdx X w).length := by
  intro k
  induction k with
  | zero => simp [rbState, rbInit]
  | succ k ih => simp [rbState, rbStep, ih]

lemma argmaxIdx_lt : ∀ (l : List ℚ), l ≠ [] → argmaxIdx l < l.length
  | [], h => absurd rfl h
  | [_], _ => by simp [argmaxIdx]
  | x :: y :: ys, _ => by
    rw [argmaxIdx]
    split
    · simp
    · have h := argmaxIdx_lt (y :: ys) (by simp)
      simpa using Nat.succ_lt_succ h

lemma rb_selected_mem (d : α → α → ℚ) (X : List α) (w : List ℚ)
    (hu : unlabeledIdx X w ≠ []) :
    ∀ k, ∀ i ∈ (rbState d X w k).selected, i ∈ unlabeledIdx X w := by
  intro k
  induction k with
  | zero => simp [rbState, rbInit]
  | succ k ih =>
    intro i hi
    simp only [rbState, rbStep, List.mem_append, List.mem_singleton] at hi
    rcases hi with hi | hi
    · exact ih i hi
    · subst hi
      apply getD_mem_of_lt
      apply Nat.lt_of_lt_of_le (argmaxIdx_lt _ ?_)
      · rw [rbScores, List.length_zipWith, rb_sims_length]
        exact Nat.le_of_eq (Nat.min_self _)
      · intro hnil
        have := congrArg List.length hnil
        rw [rbScores, List.length_zipWith, rb_sims_length, Nat.min_self] at this
        exact hu (List.length_eq_zero.mp this)

lemma rb_n_unlabeled (d : α → α → ℚ) (X : List α) (w : List ℚ) :
    ∀ k, (rbState d X w k).n_unlabeled =
      ((unlabeledIdx X w).length : ℤ) - k := by
  intro k
  induction k with
  | zero => simp [rbState, rbInit]
  | succ k ih =>
    simp only [rbState, rbStep, ih]
    push_cast
    ring

/-- C2 (counterexample): with two rows, one labeled and one eligible, and
batch_size = 2 greater than the single eligible row, select_samples raises
no error at all: it returns the full-length batch [1, 1]. -/
theorem ranked_batch_short_pool_returns_full_batch :
    select_samples euclid1 [(0 : ℚ), 1] [-1, 0] 2 = some [1, 1] ∧
    (unlabeledIdx [(0 : ℚ), 1] [-1, 0]).length = 1 := by
  constructor
  · norm_num [select_samples, rbState, rbStep, rbInit, rbPick, rbScores,
      rbAlpha, unlabeledIdx, labeledIdx, nnDist, argmaxIdx, listMax, euclid1,
      List.range_succ, min_def, max_def, abs] <;> simp
  · norm_num [unlabeledIdx, List.range_succ]

/-- C2 (amended): select_samples performs no batch-size validation.
Whenever at least one row is eligible and at least one is labeled, the
call succeeds and returns a list of length exactly batch_size whose
entries are eligible row indices, even when batch_size exceeds the number
of eligible rows (indices then repeat instead of an error being raised). -/
theorem ranked_batch_no_size_validation (d : α → α → ℚ) (X : List α)
    (w : List ℚ) (b : Nat) (hu : unlabeledIdx X w ≠ [])
    (hl : labeledIdx X w ≠ []) :
    ∃ l, select_samples d X w b = some l ∧ l.length = b ∧
      ∀ i ∈ l, i ∈ unlabeledIdx X w := by
  refine ⟨(rbState d X w b).selected, ?_, rb_selected_length d X w b,
    rb_selected_mem d X w hu b⟩
  simp [select_samples, hu, hl]

/-- C2 (witness): the amended theorem applied to the concrete two-row
input with batch_size 2. -/
theorem ranked_batch_no_size_validation_witness :
    (unlabeledIdx [(0 : ℚ), 1] [-1, 0] ≠ [] ∧
      labeledIdx [(0 : ℚ), 1] [-1, 0] ≠ []) ∧
    (∃ l, select_samples euclid1 [(0 : ℚ), 1] [-1, 0] 2 = some l ∧
      l.length = 2 ∧ ∀ i ∈ l, i ∈ unlabeledIdx [(0 : ℚ), 1] [-1, 0]) :=
  ⟨⟨by norm_num [unlabeledIdx, List.range_succ],
    by norm_num [labeledIdx, List.range_succ]⟩,
   ranked_batch_no_size_validation euclid1 [(0 : ℚ), 1] [-1, 0] 2
     (by norm_num [unlabeledIdx, List.range_succ])
     (by norm_num [labeledIdx, List.range_succ])⟩

/-- C1: the code violates the claim.  On X = rows 0, 1, 2 with weights
[-1, -2/5, -2/5] (rows 1 and 2 eligible, batch_size = 2 within bounds)
the returned batch is [2, 2]: row 2 is selected twice, because a selected
row is never removed from the eligibility mask — its weight is merely
zeroed and its similarity pinned to 1, so its score is exactly 0, which
beats the negative score of the still-unselected row 1. -/
theorem ranked_batch_reselects_selected_row :
    select_samples euclid1 [(0 : ℚ), 1, 2] [-1, -(2/5), -(2/5)] 2 =
      some [2, 2] ∧ ¬ ([2, 2] : List Nat).Nodup := by
  refine ⟨?_, by simp⟩
  norm_num [select_samples, rbState, rbStep, rbInit, rbPick, rbScores,
    rbAlpha, unlabeledIdx, labeledIdx, nnDist, argmaxIdx, listMax, euclid1,
    List.range_succ, min_def, max_def, abs] <;> simp

/-- C8: on the two-cluster scenario (points 0, 1, 2, 10, 11, 12, first
three labeled, batch_size 1, euclidean metric) the selected index lies in
the far cluster {3, 4, 5} and not in {0, 1, 2}. -/
theorem ranked_batch_two_clusters_scenario :
    ∃ i, select_samples euclid1 cSX cSW 1 = some [i] ∧
      i ∈ ([3, 4, 5] : List Nat) ∧ i ∉ ([0, 1, 2] : List Nat) := by
  refine ⟨5, ?_, by simp, by simp⟩
  norm_num [select_samples, rbState, rbStep, rbInit, rbPick, rbScores,
    rbAlpha, unlabeledIdx, labeledIdx, nnDist, argmaxIdx, listMax, euclid1,
    cSX, cSW, List.range_succ, min_def, max_def, abs] <;> simp

/-- C9: the greedy loop never writes to the array the caller passed in:
line 55 of batch.py rebinds the local name to a copy and the write on
line 81 targets that copy, so after any number of iterations the
caller-owned weight array still holds its original values. -/
theorem ranked_batch_caller_weights_unchanged (d : α → α → ℚ) (X : List α)
    (w : List ℚ) (k : Nat) : (rbState d X w k).callerW = w := by
  induction k with
  | zero => rfl
  | succ k ih => simpa [rbState, rbStep] using ih

/-- C4: the mixing coefficient used in iteration k of the greedy loop is
(u0 - k) / n_samples, where u0 is the initial eligible count; n_unlabeled
is decremented exactly once per pick, so alpha strictly decreases from one
iteration to the next. -/
theorem ranked_batch_alpha_schedule (d : α → α → ℚ) (X : List α)
    (w : List ℚ) (b k : Nat) (hk : k < b) (hX : X ≠ []) :
    rbAlpha X (rbState d X w k) =
      (((unlabeledIdx X w).length : ℚ) - (k : ℚ)) / (X.length : ℚ) ∧
    (k + 1 < b →
      rbAlpha X (rbState d X w (k + 1)) < rbAlpha X (rbState d X w k)) := by
  have hlen : (0 : ℚ) < (X.length : ℚ) := by
    have h0 : 0 < X.length := List.length_pos.mpr hX
    exact_mod_cast h0
  have h1 : ∀ m : Nat, rbAlpha X (rbState d X w m) =
      (((unlabeledIdx X w).length : ℚ) - (m : ℚ)) / (X.length : ℚ) := by
    intro m
    rw [rbAlpha, rb_n_unlabeled]
    push_cast
    ring
  refine ⟨h1 k, fun _ => ?_⟩
  rw [h1, h1]
  rw [div_lt_div_iff hlen hlen]
  push_cast
  nlinarith [hlen]

/-- C4 (witness): the alpha schedule evaluated on a concrete three-row
input with two eligible rows and batch_size 2. -/
theorem ranked_batch_alpha_schedule_witness :
    ((0 : Nat) < 2 ∧ ([(0 : ℚ), 1, 2] : List ℚ) ≠ []) ∧
    (rbAlpha [(0 : ℚ), 1, 2] (rbState euclid1 [(0 : ℚ), 1, 2] [-1, 0, 0] 0) =
      (((unlabeledIdx [(0 : ℚ), 1, 2] [-1, 0, 0]).length : ℚ) - ((0 : Nat) : ℚ)) /
        (([(0 : ℚ), 1, 2] : List ℚ).length : ℚ) ∧
    (0 + 1 < 2 →
      rbAlpha [(0 : ℚ), 1, 2] (rbState euclid1 [(0 : ℚ), 1, 2] [-1, 0, 0] (0 + 1)) <
        rbAlpha [(0 : ℚ), 1, 2] (rbState euclid1 [(0 : ℚ), 1, 2] [-1, 0, 0] 0))) :=
  ⟨⟨by norm_num, by simp⟩,
   ranked_batch_alpha_schedule euclid1 [(0 : ℚ), 1, 2] [-1, 0, 0] 2 0
     (by norm_num) (by simp)⟩

lemma nnDist_nonneg (d : α → α → ℚ) (hd : ∀ x y, 0 ≤ d x y) (x : α) :
    ∀ B : List α, 0 ≤ nnDist d x B := by
  intro B
  cases B with
  | nil => exact le_refl 0
  | cons b bs =>
    rw [nnDist]
    have h : ∀ (l : List α) (z : ℚ), 0 ≤ z →
        0 ≤ l.foldl (fun m y => min m (d x y)) z := by
      intro l
      induction l with
      | nil => exact fun _ h => h
      | cons c cs ih => exact fun z hz => ih _ (le_min hz (hd x c))
    exact h bs _ (hd x b)

lemma nnDist_append_last (d : α → α → ℚ) (x : α) (A : List α) (hA : A ≠ [])
    (y : α) : nnDist d x (A ++ [y]) = min (nnDist d x A) (d x y) := by
  cases A with
  | nil => exact absurd rfl hA
  | cons b bs =>
    show nnDist d x (b :: (bs ++ [y])) = _
    rw [nnDist, nnDist, List.foldl_append]
    rfl

lemma one_div_one_add_max (a c : ℚ) (ha : 0 ≤ a) (hc : 0 ≤ c) :
    max (1 / (1 + a)) (1 / (1 + c)) = 1 / (1 + min a c) := by
  rcases le_total a c with h | h
  · rw [min_eq_left h, max_eq_left
      (one_div_le_one_div_of_le (by linarith) (by linarith))]
  · rw [min_eq_right h, max_eq_right
      (one_div_le_one_div_of_le (by linarith) (by linarith))]

lemma zipWith_max_map_map (f g : Nat → ℚ) (l : List Nat) :
    List.zipWith max (l.map f) (l.map g) = l.map fun i => max (f i) (g i) := by
  induction l with
  | nil => rfl
  | cons a l ih => simp [ih]

/-- C3: after each iteration of the greedy loop the running similarity
cache stores, for every originally-eligible row, exactly 1 / (1 + d_min)
where d_min is the minimum distance from that row to the union of the
originally labeled rows and the rows selected so far — the incremental
elementwise-maximum update is extensionally the naive nearest-reference
recomputation. -/
theorem ranked_batch_sims_track_nearest (d : α → α → ℚ) (X : List α)
    (w : List ℚ) (hd : ∀ x y, 0 ≤ d x y) (hl : labeledIdx X w ≠ [])
    (k : Nat) :
    (rbState d X w k).sims = (unlabeledIdx X w).map (fun i =>
      1 / (1 + nnDist d (X.getD i default)
        ((labeledIdx X w ++ (rbState d X w k).selected).map
          (fun j => X.getD j default)))) := by
  induction k with
  | zero => simp [rbState, rbInit]
  | succ k ih =>
    have hsel : (rbState d X w (k + 1)).selected =
        (rbState d X w k).selected ++
          [rbPick X (unlabeledIdx X w) (rbState d X w k)] := rfl
    have hsims : (rbState d X w (k + 1)).sims =
        List.zipWith max (rbState d X w k).sims
          ((unlabeledIdx X w).map (fun i => 1 / (1 + d (X.getD i default)
            (X.getD (rbPick X (unlabeledIdx X w) (rbState d X w k))
              default)))) := rfl
    rw [hsims, ih, zipWith_max_map_map, hsel]
    apply List.map_congr_left
    intro i _
    have hmapne : ((labeledIdx X w ++ (rbState d X w k).selected).map
        (fun j => X.getD j default)) ≠ [] := by
      intro hnil
      rw [List.map_eq_nil, List.append_eq_nil] at hnil
      exact hl hnil.1
    rw [one_div_one_add_max _ _ (nnDist_nonneg d hd _ _) (hd _ _),
      ← nnDist_append_last d _ _ hmapne _]
    congr 1
    simp [List.map_append]

/-- C3 (witness): the cache formula after one pick on the six-point
two-cluster input. -/
theorem ranked_batch_sims_track_nearest_witness :
    ((∀ x y : ℚ, 0 ≤ euclid1 x y) ∧ labeledIdx cSX cSW ≠ []) ∧
    (rbState euclid1 cSX cSW 1).sims = (unlabeledIdx cSX cSW).map (fun i =>
      1 / (1 + nnDist euclid1 (cSX.getD i default)
        ((labeledIdx cSX cSW ++ (rbState euclid1 cSX cSW 1).selected).map
          (fun j => cSX.getD j default)))) :=
  ⟨⟨fun x y => abs_nonneg _,
    by norm_num [labeledIdx, cSX, cSW, List.range_succ]; simp⟩,
   ranked_batch_sims_track_nearest euclid1 cSX cSW (fun x y => abs_nonneg _)
     (by norm_num [labeledIdx, cSX, cSW, List.range_succ]; simp) 1⟩

end RankedBatchSampler

namespace ScoredQuerySampler

/-- Total preorder on index positions by score, ties by index: the order
realised by a stable ascending argsort of the score vector (base.py line
89; numpy argsorts small arrays with a stable insertion sort, and the
index tie-break is exactly what stability yields on an ascending sort). -/
def argLe (s : List ℚ) (i j : Nat) : Prop :=
  s.getD i 0 < s.getD j 0 ∨ (s.getD i 0 = s.getD j 0 ∧ i ≤ j)

instance (s : List ℚ) : DecidableRel (argLe s) := fun i j => by
  unfold argLe
  infer_instance

instance (s : List ℚ) : IsTotal Nat (argLe s) := by
  constructor
  intro i j
  rcases lt_trichotomy (s.getD i 0) (s.getD j 0) with h | h | h
  · exact Or.inl (Or.inl h)
  · rcases Nat.le_total i j with hij | hij
    · exact Or.inl (Or.inr ⟨h, hij⟩)
    · exact Or.inr (Or.inr ⟨h.symm, hij⟩)
  · exact Or.inr (Or.inl h)

instance (s : List ℚ) : IsTrans Nat (argLe s) := by
  constructor
  intro i j k hij hjk
  rcases hij with h1 | ⟨e1, l1⟩ <;> rcases hjk with h2 | ⟨e2, l2⟩
  · exact Or.inl (h1.trans h2)
  · exact Or.inl (by rw [← e2]; exact h1)
  · exact Or.inl (by rw [e1]; exact h2)
  · exact Or.inr ⟨e1.trans e2, l1.trans l2⟩

/-- np.argsort(sample_scores), base.py line 89, under the stable-sort
model: the permutation of index positions sorted ascending by score. -/
def argsortStable (s : List ℚ) : List Nat :=
  List.insertionSort (argLe s) (List.range s.length)

/-- The python slice arr[-b:], which is the whole array when b = 0. -/
def pySliceLast (b : Nat) (l : List Nat) : List Nat :=
  if b = 0 then l else l.drop (l.length - b)

/-- ScoredQuerySampler.select_samples, base.py lines 75-102.  The abstract
score_samples method is a parameter, as is the random_state.choice draw
(choice receives the probability vector and the draw size).  The second
component of the result is the sample_scores_ attribute as the call leaves
it: it is assigned the raw scores on line 87, before the strategy
dispatch, in every branch including the error branch; the squared_choice
branch squares only the local variable. -/
def select_samples (strategy : String) (batch_size : Nat)
    (score_samples : List α → List ℚ) (choice : List ℚ → Nat → List Nat)
    (X : List α) : Except String (List Nat) × List ℚ :=
  let sample_scores := score_samples X
  if strategy = "top" then
    (Except.ok (pySliceLast batch_size (argsortStable sample_scores)),
      sample_scores)
  else if strategy = "linear_choice" then
    (Except.ok (choice (sample_scores.map (fun t => t / sample_scores.sum))
      batch_size), sample_scores)
  else if strategy = "squared_choice" then
    let sq := sample_scores.map (fun t => t ^ 2)
    (Except.ok (choice (sq.map (fun t => t / sq.sum)) batch_size),
      sample_scores)
  else
    (Except.error ("Unknown sample selection strategy " ++ strategy),
      sample_scores)

/-- C5 (counterexample): two equal scores, batch_size 1.  The stable
ascending argsort is [0, 1] and the slice [-1:] keeps the last element,
so the returned index is 1, the higher of the two tied indices — not 0
as the claim's lowest-index tie-break requires. -/
theorem scored_top_tie_prefers_higher_index :
    (select_samples "top" 1 (fun (_ : List ℚ) => [(1 : ℚ), 1])
      (fun _ _ => ([] : List Nat)) [0]).1 = Except.ok [1] ∧
    ([1] : List Nat) ≠ [0] := by
  refine ⟨?_, by simp⟩
  norm_num [select_samples, pySliceLast, argsortStable, List.insertionSort,
    List.orderedInsert, argLe, List.range_succ]

/-- C5 (amended): for the top strategy the returned indices are distinct,
number min batch_size n, and their scores are exactly the batch_size
largest ones; at equal scores on the selection boundary the sample with
the highest original index is preferred (stable ascending argsort followed
by taking the last batch_size entries keeps the later of equal elements). -/
theorem scored_top_selects_largest (f : List α → List ℚ)
    (c : List ℚ → Nat → List Nat) (X : List α) (b : Nat) (hb : 1 ≤ b) :
    ∃ res, (select_samples "top" b f c X).1 = Except.ok res ∧
      res.Nodup ∧ res.length = min b (f X).length ∧
      ∀ i ∈ res, ∀ j, j < (f X).length → j ∉ res →
        ((f X).getD j 0 < (f X).getD i 0 ∨
          ((f X).getD j 0 = (f X).getD i 0 ∧ j < i)) := by
  have hb0 : b ≠ 0 := by omega
  have hperm : List.Perm (argsortStable (f X)) (List.range (f X).length) :=
    List.perm_insertionSort _ _
  have hlenA : (argsortStable (f X)).length = (f X).length := by
    rw [hperm.length_eq, List.length_range]
  have hnodupA : (argsortStable (f X)).Nodup :=
    hperm.nodup_iff.mpr (List.nodup_range _)
  have hsorted : List.Pairwise (argLe (f X)) (argsortStable (f X)) :=
    List.sorted_insertionSort _ _
  refine ⟨(argsortStable (f X)).drop ((argsortStable (f X)).length - b),
    ?_, ?_, ?_, ?_⟩
  · simp [select_samples, pySliceLast, hb0]
  · exact (List.drop_sublist _ _).nodup hnodupA
  · rw [List.length_drop, hlenA]
    omega
  · intro i hi j hj hjnot
    have hjA : j ∈ argsortStable (f X) :=
      hperm.mem_iff.mpr (List.mem_range.mpr hj)
    have hsplit : (argsortStable (f X)).take ((argsortStable (f X)).length - b)
        ++ (argsortStable (f X)).drop ((argsortStable (f X)).length - b)
        = argsortStable (f X) := List.take_append_drop _ _
    have hpw : List.Pairwise (argLe (f X))
        ((argsortStable (f X)).take ((argsortStable (f X)).length - b)
          ++ (argsortStable (f X)).drop ((argsortStable (f X)).length - b)) := by
      rw [hsplit]
      exact hsorted
    have hcross := (List.pairwise_append.mp hpw).2.2
    rw [← hsplit] at hjA
    rcases List.mem_append.mp hjA with hjtake | hjdrop
    · have hle : argLe (f X) j i := hcross j hjtake i hi
      have hne : j ≠ i := fun e => hjnot (e ▸ hi)
      rcases hle with h | ⟨he, hle2⟩
      · exact Or.inl h
      · exact Or.inr ⟨he, lt_of_le_of_ne hle2 hne⟩
    · exact absurd hjdrop hjnot

/-- C5 (witness): the amended top-strategy theorem applied to the tied
two-score input with batch_size 1. -/
theorem scored_top_selects_largest_witness :
    (1 : Nat) ≤ 1 ∧
    ∃ res, (select_samples "top" 1 (fun (_ : List ℚ) => [(1 : ℚ), 1])
        (fun _ _ => ([] : List Nat)) [0]).1 = Except.ok res ∧
      res.Nodup ∧ res.length = min 1 ([(1 : ℚ), 1]).length ∧
      ∀ i ∈ res, ∀ j, j < ([(1 : ℚ), 1]).length → j ∉ res →
        (([(1 : ℚ), 1]).getD j 0 < ([(1 : ℚ), 1]).getD i 0 ∨
          (([(1 : ℚ), 1]).getD j 0 = ([(1 : ℚ), 1]).getD i 0 ∧ j < i)) :=
  ⟨le_refl 1, scored_top_selects_largest (fun _ => [(1 : ℚ), 1])
    (fun _ _ => []) [0] 1 (le_refl 1)⟩

/-- C10: sample_scores_ receives the raw output of score_samples before
the strategy dispatch, in every branch: it is updated even when the call
fails on an unknown strategy, and the squared_choice branch squares only
its local copy, leaving the stored scores unsquared. -/
theorem scored_stores_scores_before_dispatch (strategy : String) (b : Nat)
    (f : List α → List ℚ) (c : List ℚ → Nat → List Nat) (X : List α) :
    (select_samples strategy b f c X).2 = f X ∧
    (strategy ≠ "top" → strategy ≠ "linear_choice" →
      strategy ≠ "squared_choice" →
      (select_samples strategy b f c X).1 =
        Except.error ("Unknown sample selection strategy " ++ strategy)) := by
  constructor
  · simp only [select_samples]
    split_ifs <;> rfl
  · intro h1 h2 h3
    simp [select_samples, h1, h2, h3]

/-- C10 (witness): the storing theorem applied to the unrecognized
strategy string median. -/
theorem scored_stores_scores_before_dispatch_witness :
    ("median" ≠ "top" ∧ "median" ≠ "linear_choice" ∧
      "median" ≠ "squared_choice") ∧
    (select_samples "median" 1 (fun (_ : List ℚ) => [(1 : ℚ)])
      (fun _ _ => ([] : List Nat)) [0]).2 = [(1 : ℚ)] ∧
    (select_samples "median" 1 (fun (_ : List ℚ) => [(1 : ℚ)])
      (fun _ _ => ([] : List Nat)) [0]).1 =
      Except.error ("Unknown sample selection strategy " ++ "median") :=
  ⟨⟨by decide, by decide, by decide⟩,
   (scored_stores_scores_before_dispatch "median" 1 (fun _ => [(1 : ℚ)])
     (fun _ _ => []) [0]).1,
   (scored_stores_scores_before_dispatch "median" 1 (fun _ => [(1 : ℚ)])
     (fun _ _ => []) [0]).2 (by decide) (by decide) (by decide)⟩

end ScoredQuerySampler

namespace ChainQuerySampler

/-- One step of the chaining loop, base.py lines 139-142.  A subsequent
sampler is modelled by the function smp taking first the data it is
fitted on and then the data it predicts on.  The code fits on the FULL
matrix X (line 140: sampler.fit(X)) and predicts on the selected rows
X[selected]; selected[new_selected] raises IndexError when an index is
out of range, modelled as none. -/
def chainStep (X : List α) (acc : Option (List Nat))
    (smp : List α → List α → List Nat) : Option (List Nat) :=
  acc.bind fun sel =>
    let pred := smp X (sel.map (fun i => X.getD i default))
    if pred.all (fun j => decide (j < sel.length)) then
      some (pred.map (fun j => sel.getD j 0))
    else none

/-- ChainQuerySampler.select_samples, base.py lines 128-144. -/
def select_samples (first : List α → List Nat)
    (rest : List (List α → List α → List Nat)) (X : List α) :
    Option (List Nat) :=
  rest.foldl (chainStep X) (some (first X))

/-- Modelled from the spec for comparison only: section 4.3 words say each
subsequent sampler is fitted on the currently-selected subset's features,
so this variant passes X[selected] (not X) as the fit data. -/
def chainStepSpecFit (X : List α) (acc : Option (List Nat))
    (smp : List α → List α → List Nat) : Option (List Nat) :=
  acc.bind fun sel =>
    let sub := sel.map (fun i => X.getD i default)
    let pred := smp sub sub
    if pred.all (fun j => decide (j < sel.length)) then
      some (pred.map (fun j => sel.getD j 0))
    else none

/-- Modelled from the spec for comparison only: chain selection when each
subsequent sampler is fitted on the selected subset, as section 4.3 words
describe. -/
def select_samples_specFit (first : List α → List Nat)
    (rest : List (List α → List α → List Nat)) (X : List α) :
    Option (List Nat) :=
  rest.foldl (chainStepSpecFit X) (some (first X))

/-- Concrete rows for the chain counterexample. -/
def cChX : List ℚ := [10, 20]

/-- First sampler of the chain counterexample: always selects row 1. -/
def cChFirst : List ℚ → List Nat := fun _ => [1]

/-- Second sampler of the chain counterexample: its prediction depends on
the size of the data it was fitted on, which makes the fit-on-full-X and
fit-on-subset behaviours observably different. -/
def cChSub : List ℚ → List ℚ → List Nat :=
  fun fitData _ => if fitData.length = 2 then [0] else []

lemma chain_foldl_none (X : List α) :
    ∀ rest : List (List α → List α → List Nat),
      rest.foldl (chainStep X) none = none := by
  intro rest
  induction rest with
  | nil => rfl
  | cons smp rest ih => simpa [chainStep] using ih

lemma chain_foldl_subset (X : List α) :
    ∀ (rest : List (List α → List α → List Nat)) (sel res : List Nat),
      rest.foldl (chainStep X) (some sel) = some res → ∀ i ∈ res, i ∈ sel := by
  intro rest
  induction rest with
  | nil =>
    intro sel res h
    cases h
    exact fun i hi => hi
  | cons smp rest ih =>
    intro sel res h
    rw [List.foldl_cons] at h
    cases hstep : chainStep X (some sel) smp with
    | none =>
      rw [hstep, chain_foldl_none] at h
      exact absurd h (by simp)
    | some sel' =>
      rw [hstep] at h
      intro i hi
      have hsub := ih sel' res h i hi
      rw [chainStep] at hstep
      simp only [Option.some_bind] at hstep
      split at hstep
      · rename_i hall
        injection hstep with hsel'
        subst hsel'
        rcases List.mem_map.mp hsub with ⟨j, hjmem, hji⟩
        have hjlt : j < sel.length :=
          of_decide_eq_true (List.all_eq_true.mp hall j hjmem)
        rw [← hji]
        exact getD_mem_of_lt hjlt 0
      · exact absurd hstep (by simp)

/-- C6 (counterexample): a chain whose second sampler reacts to the size
of its fit data.  The code fits it on the full two-row X and returns
some [1]; the spec-described variant fits on the one-row selected subset
and returns some [].  The two disagree, so the claim that each subsequent
sampler is fitted on the currently-selected subset is false of the code. -/
theorem chain_fit_uses_full_X :
    select_samples cChFirst [cChSub] cChX = some [1] ∧
    select_samples_specFit cChFirst [cChSub] cChX = some [] ∧
    (some [1] : Option (List Nat)) ≠ some [] := by
  refine ⟨?_, ?_, by simp⟩
  · simp [select_samples, chainStep, cChX, cChFirst, cChSub]
  · simp [select_samples_specFit, chainStepSpecFit, cChX, cChFirst, cChSub]

/-- C6 (amended): subsequent samplers are fitted on the full X (not on
the selected subset), and whenever the chain returns a result every index
in it is one the first sampler returned: the composition only filters the
first selection, it never introduces new indices. -/
theorem chain_result_subset_of_first (first : List α → List Nat)
    (rest : List (List α → List α → List Nat)) (X : List α)
    (res : List Nat) (h : select_samples first rest X = some res) :
    ∀ i ∈ res, i ∈ first X :=
  chain_foldl_subset X rest (first X) res h

/-- C6 (witness): the subset theorem applied to the concrete chain of the
counterexample. -/
theorem chain_result_subset_of_first_witness :
    select_samples cChFirst [cChSub] cChX = some [1] ∧ 1 ∈ cChFirst cChX :=
  ⟨by simp [select_samples, chainStep, cChX, cChFirst, cChSub],
   chain_result_subset_of_first cChFirst [cChSub] cChX [1]
     (by simp [select_samples, chainStep, cChX, cChFirst, cChSub]) 1
     (by simp)⟩

end ChainQuerySampler

namespace AdaptiveQuerySampler

/-- Observable interface of a sub-sampler: fit returns the sub-sampler's
updated internal state, select_samples reads it. -/
structure PySub (α β σ : Type) where
  fit : σ → List α → List β → σ
  select_samples : σ → List α → List Nat

/-- State held by an AdaptiveQuerySampler instance,
plot_digits_metrics.py lines 92-95: the two sub-samplers' states and the
recorded labeled-set size (None before any fit). -/
structure State (σ₁ σ₂ : Type) where
  explorationState : σ₁
  exploitationState : σ₂
  X_train_size : Option Nat

variable {β σ₁ σ₂ : Type}

/-- AdaptiveQuerySampler.fit, plot_digits_metrics.py lines 97-101: records
the labeled-set size and fits both sub-samplers unconditionally. -/
def fit (e1 : PySub α β σ₁) (e2 : PySub α β σ₂) (st : State σ₁ σ₂)
    (X_train : List α) (y_train : List β) : State σ₁ σ₂ :=
  { X_train_size := some X_train.length
    explorationState := e1.fit st.explorationState X_train y_train
    exploitationState := e2.fit st.exploitationState X_train y_train }

/-- AdaptiveQuerySampler.select_samples, plot_digits_metrics.py lines
103-107: routes wholly to the exploration sampler when the recorded size
is at most 50, else wholly to the exploitation sampler.  Comparing the
Python None with an integer would raise, modelled as none. -/
def select_samples (e1 : PySub α β σ₁) (e2 : PySub α β σ₂)
    (st : State σ₁ σ₂) (X : List α) : Option (List Nat) :=
  match st.X_train_size with
  | none => none
  | some s =>
    if s ≤ 50 then some (e1.select_samples st.explorationState X)
    else some (e2.select_samples st.exploitationState X)

/-- C7: fit fits both sub-samplers unconditionally, and select_samples
after a fit that recorded labeled-set size s is output-identical to the
exploration sampler alone when s is at most 50 and to the exploitation
sampler alone when s exceeds 50 — the two outputs are never mixed. -/
theorem adaptive_routes_exclusively (e1 : PySub α β σ₁) (e2 : PySub α β σ₂)
    (st0 : State σ₁ σ₂) (X_train : List α) (y_train : List β) (X : List α) :
    ((fit e1 e2 st0 X_train y_train).explorationState =
        e1.fit st0.explorationState X_train y_train ∧
      (fit e1 e2 st0 X_train y_train).exploitationState =
        e2.fit st0.exploitationState X_train y_train) ∧
    (X_train.length ≤ 50 →
      select_samples e1 e2 (fit e1 e2 st0 X_train y_train) X =
        some (e1.select_samples
          (e1.fit st0.explorationState X_train y_train) X)) ∧
    (50 < X_train.length →
      select_samples e1 e2 (fit e1 e2 st0 X_train y_train) X =
        some (e2.select_samples
          (e2.fit st0.exploitationState X_train y_train) X)) := by
  refine ⟨⟨rfl, rfl⟩, fun h => ?_, fun h => ?_⟩
  · simp [select_samples, fit, h]
  · simp [select_samples, fit, Nat.not_le.mpr h]

/-- Exploration sub-sampler used by the adaptive witness. -/
def cAdSub1 : PySub ℚ ℚ Unit := ⟨fun s _ _ => s, fun _ X => [X.length]⟩

/-- Exploitation sub-sampler used by the adaptive witness. -/
def cAdSub2 : PySub ℚ ℚ Unit := ⟨fun s _ _ => s, fun _ _ => []⟩

/-- C7 (witness): a three-row labeled set routes to the exploration
sampler. -/
theorem adaptive_routes_exclusively_witness :
    ([(1 : ℚ), 2, 3].length ≤ 50) ∧
    select_samples cAdSub1 cAdSub2
        (fit cAdSub1 cAdSub2 ⟨(), (), none⟩ [(1 : ℚ), 2, 3] [0]) [(5 : ℚ)] =
      some (cAdSub1.select_samples
        (cAdSub1.fit () [(1 : ℚ), 2, 3] [0]) [(5 : ℚ)]) :=
  ⟨by decide,
   (adaptive_routes_exclusively cAdSub1 cAdSub2 ⟨(), (), none⟩
     [(1 : ℚ), 2, 3] [0] [(5 : ℚ)]).2.1 (by decide)⟩

end AdaptiveQuerySampler

end Cardinal
